import Mathlib

/-!
Verification development for the insurance-document financial parser
(`insurance_parser.py`).  The Python source is shallowly embedded here:

* Python `str` is modelled as `List Char` (`Str` below); `str.split('\n')`,
  `str.lower()`, `str.strip()`, substring tests (`in`) and slicing are
  translated as executable list functions.
* Python `float` amounts and confidences are modelled as exact rationals
  (`ℚ`).  The source only ever produces decimal literals with at most a few
  fractional digits and compares them against decimal constants, which the
  rational model reflects faithfully.
* The regular expressions of the source are compiled into an explicit
  syntax tree (`Re`) and executed by a fueled backtracking matcher with
  Python's semantics (leftmost match, greedy quantifiers, left-biased
  alternation, non-overlapping `finditer` scan).  `\d` and `\s` are the
  ASCII digit / whitespace classes, which covers every character class the
  documents and patterns use.
* Python dictionaries (`CURRENCY_SYMBOLS`, `FIELD_PATTERNS`, the summary
  maps) are modelled as association lists in insertion order, matching
  Python's ordered-dict iteration.
* `FinancialField` dataclass instances are the `Field` structure; the enum
  `FieldCategory` is `Cat`; `None`-able attributes use `Option`.
* The wall-clock `extraction_date` metadata entry and the file/JSON/CSV
  output layers are outside the extraction core and are not modelled.
-/

namespace InsParse

/-- Python `str`, modelled as a list of characters. -/
abbrev Str := List Char

/-- Python's ASCII whitespace set used by `\s` and `str.strip`. -/
def isSpacePy (c : Char) : Bool :=
  c = ' ' || c = '\t' || c = '\n' || c = '\r' || c = Char.ofNat 11 || c = Char.ofNat 12

/-- ASCII decimal digit, Python's `\d` on the ASCII range. -/
def isDigitPy (c : Char) : Bool :=
  '0' ≤ c && c ≤ '9'

/-- Python `str.lower()` (ASCII case folding; the parser's inputs of
interest are ASCII plus `₹`, which is case-invariant). -/
def lower (s : Str) : Str := s.map Char.toLower

/-- Substring test: Python `needle in hay`. -/
def containsStr (hay needle : Str) : Bool :=
  match hay with
  | [] => needle.isEmpty
  | _ :: t => needle.isPrefixOf hay || containsStr t needle

/-- Python `str.strip()` (both ends, whitespace). -/
def pstrip (s : Str) : Str :=
  ((s.dropWhile isSpacePy).reverse.dropWhile isSpacePy).reverse

/-- Python `str.split(c)` for a single-character separator: splits at every
occurrence, keeping empty pieces (`"".split(c) == [""]`). -/
def splitOnChar (sep : Char) : Str → List Str
  | [] => [[]]
  | c :: t =>
    if c = sep then [] :: splitOnChar sep t
    else
      match splitOnChar sep t with
      | [] => [[c]]
      | h :: r => (c :: h) :: r

/-- `document_text.split('\n')`. -/
def splitNl (s : Str) : List Str := splitOnChar '\n' s

/-- Python slicing `s[a:b]` (for `0 ≤ a ≤ b`). -/
def slice (s : Str) (a b : Nat) : Str := (s.drop a).take (b - a)

/-- The ten decimal digit characters. -/
def digits10 : List Char := ['0', '1', '2', '3', '4', '5', '6', '7', '8', '9']

/-- Digit character of `d` (defined for `d < 10`). -/
def digCh (d : Nat) : Char :=
  match d with
  | 0 => '0' | 1 => '1' | 2 => '2' | 3 => '3' | 4 => '4'
  | 5 => '5' | 6 => '6' | 7 => '7' | 8 => '8' | _ => '9'

/-- Decimal rendering, fueled so that it reduces inside the kernel; the
fuel `n + 1` always suffices since the argument shrinks by division. -/
def natDigsAux : Nat → Nat → Str
  | 0, _ => []
  | fuel + 1, n =>
    if n < 10 then [digCh n]
    else natDigsAux fuel (n / 10) ++ [digCh (n % 10)]

/-- Decimal rendering of a natural number, as Python `str(i)` /
f-string interpolation produces it. -/
def natDigs (n : Nat) : Str := natDigsAux (n + 1) n

/-- Numeric value of a digit string. -/
def digitsToNat (s : Str) : Nat :=
  s.foldl (fun n c => n * 10 + (c.toNat - 48)) 0

/-- Python `min` on two floats, written as an `if` so that it reduces in
the kernel; equal to `min` (see `minQ_eq_min`). -/
def minQ (a b : ℚ) : ℚ := if a ≤ b then a else b

/-- Python `abs` on a float, written as an `if` so that it reduces in the
kernel; equal to `|·|` (see `absQ_eq_abs`). -/
def absQ (q : ℚ) : ℚ := if q < 0 then -q else q

/-- Python `float(s)` restricted to the unsigned decimal forms that the
parser's capture groups can produce (strings over digits and `.`, commas
already removed): at most one dot, at least one digit; no sign, exponent
or named forms arise from the patterns. -/
def pyFloat (s : Str) : Option ℚ :=
  if s.all (fun c => isDigitPy c || c = '.') then
    match splitOnChar '.' s with
    | [a] => if a = [] then none else some (digitsToNat a)
    | [a, b] =>
      if a ++ b = [] then none
      else some ((digitsToNat a : ℚ) + (digitsToNat b : ℚ) / (10 : ℚ) ^ b.length)
    | _ => none
  else none

/-- `InsuranceParser.extract_number`: strip commas and surrounding
whitespace, then parse as a float, `None` on failure. -/
def extract_number (text : Str) : Option ℚ :=
  pyFloat (pstrip (text.filter (fun c => c ≠ ',')))

/-! ### Regular expressions

Syntax tree for the fragment of Python `re` the source uses, and a fueled
backtracking matcher with Python's preference order (greedy `*`/`?`/`+`,
left-biased `|`, earliest-exit on overall success). -/

inductive Re where
  | eps : Re
  | cls (p : Char → Bool) : Re
  | seq (a b : Re) : Re
  | alt (a b : Re) : Re
  | opt (a : Re) : Re
  | star (a : Re) : Re
  | grp (a : Re) : Re

/-- Backtracking matcher.  `s` is the rest of the input, `p` the absolute
position, `cap` the capture span of group 1 so far; `k` is the success
continuation receiving rest/position/captures.  Fuel only bounds
recursion depth; `matchAt` supplies more than any pattern here needs. -/
def reM (fuel : Nat) (re : Re) (s : Str) (p : Nat) (cap : Option (Nat × Nat))
    (k : Str → Nat → Option (Nat × Nat) → Option (Nat × Option (Nat × Nat))) :
    Option (Nat × Option (Nat × Nat)) :=
  match fuel with
  | 0 => none
  | fuel + 1 =>
    match re with
    | .eps => k s p cap
    | .cls f =>
      match s with
      | [] => none
      | c :: t => if f c then k t (p + 1) cap else none
    | .seq a b => reM fuel a s p cap (fun s1 p1 c1 => reM fuel b s1 p1 c1 k)
    | .alt a b => (reM fuel a s p cap k).orElse (fun _ => reM fuel b s p cap k)
    | .opt a => (reM fuel a s p cap k).orElse (fun _ => k s p cap)
    | .star a =>
      (reM fuel a s p cap (fun s1 p1 c1 => reM fuel (.star a) s1 p1 c1 k)).orElse
        (fun _ => k s p cap)
    | .grp a => reM fuel a s p cap (fun s1 p1 _ => k s1 p1 (some (p, p1)))

/-- A single regex match: span `[start, stop)` in the scanned string plus
the capture span of group 1 (`none` when the group did not participate). -/
structure RMatch where
  start : Nat
  stop : Nat
  cap : Option (Nat × Nat)
deriving DecidableEq, Repr

/-- Attempt an anchored match of `re` at position `p` of `doc`. -/
def matchAt (re : Re) (doc : Str) (p : Nat) : Option RMatch :=
  match reM ((doc.length + 2) * 64) re (doc.drop p) p none
      (fun _ p1 c1 => some (p1, c1)) with
  | some (e, cap) => some ⟨p, e, cap⟩
  | none => none

/-- `re.finditer`: non-overlapping matches scanning left to right; after a
match the scan resumes at its end (or one past an empty match). -/
def finditerAux (gas : Nat) (re : Re) (doc : Str) (p : Nat) : List RMatch :=
  match gas with
  | 0 => []
  | gas + 1 =>
    if p > doc.length then []
    else
      match matchAt re doc p with
      | some m =>
        m :: finditerAux gas re doc (if m.stop > p then m.stop else p + 1)
      | none => finditerAux gas re doc (p + 1)

def finditer (re : Re) (doc : Str) : List RMatch :=
  finditerAux (doc.length + 2) re doc 0

/-- Text of capture group 1 of a match against `doc` (all patterns the
parser feeds to `extract_number` have a mandatory group 1). -/
def group1 (doc : Str) (m : RMatch) : Str :=
  match m.cap with
  | some (a, b) => slice doc a b
  | none => []

/-- Whole matched text, Python `match.group(0)`. -/
def group0 (doc : Str) (m : RMatch) : Str := slice doc m.start m.stop

/-- `re.search` as a Boolean: does the pattern match anywhere? -/
def reSearch (re : Re) (doc : Str) : Bool := !(finditer re doc).isEmpty

/-! Combinators used to transcribe the source's pattern strings. -/

/-- Case-insensitive literal character (for patterns compiled with
`re.IGNORECASE`). -/
def lch (c : Char) : Re := .cls (fun x => x.toLower = c.toLower)

/-- Case-sensitive literal character. -/
def sch (c : Char) : Re := .cls (fun x => x = c)

/-- Sequence a list of regexes. -/
def cat (l : List Re) : Re := l.foldr .seq .eps

/-- Case-insensitive literal string. -/
def istr (s : String) : Re := cat (s.data.map lch)

/-- Case-sensitive literal string. -/
def cstr (s : String) : Re := cat (s.data.map sch)

/-- `r+` as `r r*`. -/
def plus1 (a : Re) : Re := .seq a (.star a)

def wsp : Re := .cls isSpacePy
def dig : Re := .cls isDigitPy
/-- `\s+`. -/
def ws1 : Re := plus1 wsp
/-- `\s*`. -/
def ws0 : Re := .star wsp
/-- `[:\s]+`. -/
def colsp : Re := plus1 (.cls (fun c => c = ':' || isSpacePy c))
/-- `(?:₹|Rs\.?|INR)` (case-insensitive variant, for IGNORECASE patterns). -/
def curMark : Re :=
  .alt (istr "₹") (.alt (.seq (istr "Rs") (.opt (sch '.'))) (istr "INR"))
/-- `(?:₹|Rs\.?|INR)?\s*` prefix used before every captured amount. -/
def curPre : Re := .seq (.opt curMark) ws0
/-- `([\d,]+\.?\d*)` — the captured numeric group. -/
def numGrp : Re :=
  .grp (cat [plus1 (.cls (fun c => isDigitPy c || c = ',')), .opt (sch '.'), .star dig])
/-- `[:\s]+(?:₹|Rs\.?|INR)?\s*([\d,]+\.?\d*)` — the common pattern tail. -/
def amtTail : Re := cat [colsp, curPre, numGrp]
/-- `[-\s]` as used in `Out[-s]of...` / `Co[-\s]?payment`. -/
def dashsp : Re := .cls (fun c => c = '-' || isSpacePy c)
/-- `[\d.]+`. -/
def digdot1 : Re := plus1 (.cls (fun c => isDigitPy c || c = '.'))
/-- `([\d.]+)%` — the copayment percentage capture. -/
def pctGrp : Re := .seq (.grp digdot1) (sch '%')
/-- `[^:]*`. -/
def noColon : Re := .star (.cls (fun c => c ≠ ':'))

/-- `InsuranceParser.FIELD_PATTERNS`: the ordered field-name → pattern-list
table, each regex transcribed from the source (all are applied with
`re.IGNORECASE`). -/
def FIELD_PATTERNS : List (Str × List Re) := [
  ("annual_premium".data, [
    cat [istr "Annual", ws1, istr "Premium", .opt (.seq ws1 (istr "Amount")), amtTail],
    cat [istr "Total", ws1, istr "Annual", ws1, istr "Premium", amtTail],
    cat [istr "Yearly", ws1, istr "Premium", amtTail]]),
  ("monthly_premium".data, [
    cat [istr "Monthly", ws1, istr "Premium", .opt (.seq ws1 (istr "Amount")), amtTail],
    cat [istr "Per", ws1, istr "Month", ws1, istr "Premium", amtTail]]),
  ("quarterly_premium".data, [
    cat [istr "Quarterly", ws1, istr "Premium", .opt (.seq ws1 (istr "Amount")), amtTail]]),
  ("sum_insured".data, [
    cat [istr "Sum", ws1, istr "Insured", amtTail],
    cat [istr "Coverage", ws1, .alt (istr "Amount") (istr "Limit"), amtTail],
    cat [istr "Annual", ws1, istr "Coverage", ws1, istr "Limit", amtTail]]),
  ("maximum_coverage".data, [
    cat [istr "Maximum", ws1, istr "Coverage", amtTail],
    cat [istr "Max", .opt (istr "imum"), ws1, istr "Limit", amtTail]]),
  ("deductible".data, [
    cat [.opt (.seq (istr "Annual") ws1), istr "Deductible",
         .opt (.seq ws1 (istr "Amount")), amtTail],
    cat [istr "Out", dashsp, istr "of", dashsp, istr "Pocket", ws1,
         .alt (istr "Maximum") (istr "Limit"), amtTail]]),
  ("copayment_percentage".data, [
    cat [istr "Co", .opt dashsp, istr "payment", .opt (.seq ws1 (istr "Percentage")),
         colsp, pctGrp],
    cat [istr "Co", .opt dashsp, istr "pay", colsp, pctGrp]]),
  ("copayment_maximum".data, [
    cat [istr "Co", .opt dashsp, istr "payment", ws1, istr "Maximum", amtTail]]),
  ("gst".data, [
    cat [.alt (istr "GST")
           (cat [istr "Goods", ws1, istr "and", ws1, istr "Services", ws1, istr "Tax"]),
         noColon, .opt (sch '@'), ws0, digdot1, sch '%', amtTail],
    cat [istr "Tax", ws1, istr "Amount", amtTail]]),
  ("admin_fee".data, [
    cat [.opt (.seq (istr "Policy") ws1), istr "Administration", ws1, istr "Fee", amtTail],
    cat [istr "Admin", ws1, istr "Charge", .opt (lch 's'), amtTail]]),
  ("service_charge".data, [
    cat [istr "Service", ws1, istr "Charge", .opt (lch 's'), amtTail]]),
  ("total_amount_paid".data, [
    cat [istr "TOTAL", ws1, istr "AMOUNT", ws1, istr "PAID", amtTail],
    cat [istr "Total", ws1, istr "Premium", ws1, istr "Paid", amtTail]]),
  ("claim_amount_submitted".data, [
    cat [istr "Claim", ws1, istr "Amount", ws1, istr "Submitted", amtTail]]),
  ("claim_amount_approved".data, [
    cat [istr "Claim", ws1, istr "Amount", ws1, istr "Approved", amtTail]]),
  ("total_claims_paid".data, [
    cat [istr "Total", ws1, istr "Claim", ws1, istr "Payout", .opt (lch 's'), amtTail]]),
  ("maternity_coverage".data, [
    cat [istr "Maternity", ws1, istr "Coverage", .opt (.seq ws1 (istr "Limit")), amtTail]]),
  ("critical_illness_coverage".data, [
    cat [istr "Critical", ws1, istr "Illness", ws1,
         .alt (cat [istr "Sum", ws1, istr "Assured"]) (istr "Coverage"), amtTail]]),
  ("ambulance_charges".data, [
    cat [istr "Ambulance", ws1, istr "Charge", .opt (lch 's'), amtTail]]),
  ("room_limit_per_day".data, [
    cat [istr "Room", ws1, istr "Limit", colsp, curPre, numGrp, ws0,
         istr "per", ws1, istr "day"],
    cat [istr "Per", ws1, .opt (.seq (istr "Hospitalization") ws1),
         istr "Room", ws1, istr "Limit", amtTail]]),
  ("icu_limit_per_day".data, [
    cat [istr "ICU", ws1, istr "Room", ws1, istr "Limit", amtTail]]),
  ("renewal_premium".data, [
    cat [.opt (.seq (istr "Estimated") ws1), istr "Renewal", ws1, istr "Premium", amtTail]]),
  ("no_claim_bonus".data, [
    cat [istr "No", ws1, istr "Claim", ws1, istr "Bonus", ws1, istr "Discount",
         .opt (.seq ws1 (istr "Amount")), amtTail]])]

/-! ### Data model -/

/-- `FieldCategory`. -/
inductive Cat where
  | PREMIUM | COVERAGE | DEDUCTIBLE | CLAIM | TAX | FEE | BENEFIT | LIMIT
deriving DecidableEq, Repr

/-- `FieldCategory.value` — the lowercase string tag of a category. -/
def Cat.val : Cat → Str
  | .PREMIUM => "premium".data
  | .COVERAGE => "coverage".data
  | .DEDUCTIBLE => "deductible".data
  | .CLAIM => "claim".data
  | .TAX => "tax".data
  | .FEE => "fee".data
  | .BENEFIT => "benefit".data
  | .LIMIT => "limit".data

/-- The `FinancialField` dataclass. -/
structure Field where
  field_name : Str
  value : ℚ
  currency : Str
  category : Cat
  context : Str
  confidence : ℚ
  line_number : Option Nat := none
  extraction_method : Option Str := none
deriving DecidableEq, Repr

/-- `InsuranceParser.CURRENCY_SYMBOLS` (dict in insertion order). -/
def CURRENCY_SYMBOLS : List (Str × Str) := [
  ("₹".data, "INR".data),
  ("Rs.".data, "INR".data),
  ("Rs".data, "INR".data),
  ("INR".data, "INR".data),
  ("$".data, "USD".data),
  ("USD".data, "USD".data),
  ("€".data, "EUR".data),
  ("EUR".data, "EUR".data),
  ("£".data, "GBP".data),
  ("GBP".data, "GBP".data)]

/-- The `for symbol, code in CURRENCY_SYMBOLS.items()` loop body of
`detect_currency`. -/
def detectLoop (text : Str) : List (Str × Str) → Str
  | [] => "INR".data
  | (symbol, code) :: rest =>
    if containsStr text symbol then code else detectLoop text rest

/-- `InsuranceParser.detect_currency`. -/
def detect_currency (text : Str) : Str := detectLoop text CURRENCY_SYMBOLS

/-- The confidence scorer's grouped-number pattern
`\d{1,3}(,\d{3})*(\.\d{2})?` (its two groups are never read, so they are
transcribed without capture markers). -/
def groupedRe : Re :=
  cat [dig, .opt (.seq dig (.opt dig)),
       .star (cat [sch ',', dig, dig, dig]),
       .opt (cat [sch '.', dig, dig])]

/-- `InsuranceParser.calculate_confidence`. -/
def calculate_confidence (field_name : Str) (value : ℚ) (context : Str) : ℚ :=
  let confidence : ℚ := 1/2
  let indicators : List (Bool × ℚ) := [
    (containsStr context "₹".data || containsStr context "Rs".data, 1/10),
    (containsStr (lower context)
       ((lower field_name).map (fun c => if c = '_' then ' ' else c)), 1/5),
    (decide (0 < value), 1/10),
    (reSearch groupedRe context, 1/10)]
  let confidence := indicators.foldl
    (fun cf bc => if bc.1 then cf + bc.2 else cf) confidence
  minQ confidence 1

/-- `InsuranceParser.categorize_field`. -/
def categorize_field (field_name : Str) : Cat :=
  let name_lower := lower field_name
  if containsStr name_lower "premium".data then .PREMIUM
  else if containsStr name_lower "claim".data then .CLAIM
  else if containsStr name_lower "deductible".data || containsStr name_lower "copay".data then
    .DEDUCTIBLE
  else if containsStr name_lower "tax".data || containsStr name_lower "gst".data then .TAX
  else if containsStr name_lower "fee".data || containsStr name_lower "charge".data then .FEE
  else if containsStr name_lower "coverage".data || containsStr name_lower "insured".data
      || containsStr name_lower "benefit".data then .COVERAGE
  else if containsStr name_lower "limit".data || containsStr name_lower "maximum".data then
    .LIMIT
  else .BENEFIT

/-! ### The three extraction passes -/

/-- Context window of a pattern match: 50 characters before and after the
match span (clipped to the document), newlines replaced by spaces. -/
def patContext (doc : Str) (m : RMatch) : Str :=
  (slice doc (m.start - 50) (min doc.length (m.stop + 50))).map
    (fun c => if c = '\n' then ' ' else c)

/-- The field built for an accepted pattern match (lines 297–306 of the
source). -/
def mkPatField (doc : Str) (name : Str) (m : RMatch) (v : ℚ) : Field :=
  let context := patContext doc m
  { field_name := name
    value := v
    currency := detect_currency context
    category := categorize_field name
    context := pstrip context
    confidence := calculate_confidence name v context
    line_number := some ((slice doc 0 m.start).count '\n' + 1)
    extraction_method := some "pattern_matching".data }

/-- The inner `for match in matches` loop of `parse_with_patterns`: skip
matches whose capture does not parse, accept the first one that does. -/
def firstParseable (doc : Str) (re : Re) : Option (RMatch × ℚ) :=
  (finditer re doc).findSome? fun m =>
    (extract_number (group1 doc m)).map fun v => (m, v)

/-- The `for pattern in patterns` loop of `parse_with_patterns`, including
the source's `results[-1].field_name == field_name` early-exit test. -/
def pmPatLoop (doc name : Str) : List Re → List Field → List Field
  | [], results => results
  | re :: rest, results =>
    let results' :=
      match firstParseable doc re with
      | some mv => results ++ [mkPatField doc name mv.1 mv.2]
      | none => results
    match results'.getLast? with
    | some f => if f.field_name = name then results' else pmPatLoop doc name rest results'
    | none => pmPatLoop doc name rest results'

/-- `InsuranceParser.parse_with_patterns`. -/
def parse_with_patterns (doc : Str) : List Field :=
  FIELD_PATTERNS.foldl (fun results e => pmPatLoop doc e.1 e.2 results) []

/-- What one field-name table entry contributes: the first pattern with a
parseable match yields its first parseable match, later patterns are
never consulted. -/
def pmEntry (doc name : Str) (pats : List Re) : Option Field :=
  (pats.findSome? (firstParseable doc)).map fun mv => mkPatField doc name mv.1 mv.2

/-- The keyword list of `parse_context_aware`. -/
def keywords : List Str :=
  ["premium".data, "deductible".data, "coverage".data, "claim".data, "fee".data,
   "charge".data, "limit".data, "benefit".data, "tax".data, "payment".data,
   "amount".data, "total".data]

/-- The context scanner's amount pattern `(?:₹|Rs\.?|INR)?\s*([\d,]+\.?\d*)`
(compiled without `re.IGNORECASE`; its literals are case-sensitive). -/
def ctxAmountRe : Re :=
  cat [.opt (.alt (cstr "₹") (.alt (.seq (cstr "Rs") (.opt (sch '.'))) (cstr "INR"))),
       ws0, numGrp]

/-- `enumerate(self.lines, 1)`. -/
def enum1 (l : List Str) : List (Nat × Str) := (List.range' 1 l.length).zip l

/-- The `already_extracted` duplicate test shared by the context and
exhaustive scanners: some accumulated field has the same line number and a
value within 0.01. -/
def alreadyExtracted (parsed : List Field) (i : Nat) (v : ℚ) : Bool :=
  parsed.any fun f => decide (f.line_number = some i ∧ absQ (f.value - v) < 1/100)

/-- The field built by the context scanner for keyword `kw`, line `i`. -/
def mkCtxField (kw : Str) (i : Nat) (line : Str) (v : ℚ) : Field :=
  let field_name := kw ++ "_line_".data ++ natDigs i
  { field_name := field_name
    value := v
    currency := detect_currency line
    category := categorize_field kw
    context := pstrip line
    confidence := calculate_confidence field_name v line * (4/5)
    line_number := some i
    extraction_method := some "context_aware".data }

/-- `InsuranceParser.parse_context_aware`.  `parsed` is the accumulated
`self.parsed_fields` at the start of the pass; note that the duplicate
test reads only `parsed`, never the pass's own growing result list. -/
def parse_context_aware (lines : List Str) (parsed : List Field) : List Field :=
  (enum1 lines).flatMap fun il =>
    let line_lower := lower il.2
    keywords.flatMap fun kw =>
      if containsStr line_lower kw then
        (finditer ctxAmountRe il.2).filterMap fun m =>
          match extract_number (group1 il.2 m) with
          | none => none
          | some v =>
            -- Python `if value and value > 0` (0.0 is falsy)
            if v ≠ 0 ∧ 0 < v then
              if alreadyExtracted parsed il.1 v then none
              else some (mkCtxField kw il.1 il.2 v)
            else none
      else []

/-- The exhaustive scanner's pattern
`(?:₹|Rs\.?|INR|USD|\$|EUR|€)\s*([\d,]+\.?\d*)` (with `re.IGNORECASE`). -/
def allAmountRe : Re :=
  cat [.alt (istr "₹")
         (.alt (.seq (istr "Rs") (.opt (sch '.')))
           (.alt (istr "INR") (.alt (istr "USD") (.alt (sch '$') (.alt (istr "EUR") (istr "€")))))),
       ws0, numGrp]

/-- The field built by the exhaustive scanner for a match on line `i`. -/
def mkAllField (i : Nat) (line : Str) (m : RMatch) (v : ℚ) : Field :=
  { field_name := "amount_line_".data ++ natDigs i
    value := v
    currency := detect_currency (group0 line m)
    category := .BENEFIT
    context := pstrip line
    confidence := 1/2
    line_number := some i
    extraction_method := some "all_amounts".data }

/-- `InsuranceParser.parse_all_amounts`. -/
def parse_all_amounts (lines : List Str) (parsed : List Field) : List Field :=
  (enum1 lines).flatMap fun il =>
    (finditer allAmountRe il.2).filterMap fun m =>
      match extract_number (group1 il.2 m) with
      | none => none
      | some v =>
        if v ≠ 0 ∧ 0 < v then
          if alreadyExtracted parsed il.1 v then none
          else some (mkAllField il.1 il.2 m v)
        else none

/-! ### Orchestrator and summary -/

/-- The summary dictionary of `_generate_summary`. -/
structure Summary where
  by_category : List (Str × Nat)
  by_currency : List (Str × Nat)
  high_confidence_fields : Nat
  total_premium_amount : ℚ
  total_coverage_amount : ℚ
  total_claims_amount : ℚ
deriving DecidableEq, Repr

/-- `d[k] = d.get(k, 0) + 1` on an insertion-ordered dict. -/
def bump (m : List (Str × Nat)) (k : Str) : List (Str × Nat) :=
  match m with
  | [] => [(k, 1)]
  | (a, n) :: t => if a = k then (a, n + 1) :: t else (a, n) :: bump t k

/-- One iteration of the `for field in self.parsed_fields` summary loop. -/
def summaryStep (s : Summary) (f : Field) : Summary :=
  let s := { s with by_category := bump s.by_category f.category.val,
                    by_currency := bump s.by_currency f.currency }
  let s := if f.confidence ≥ 8/10 then
      { s with high_confidence_fields := s.high_confidence_fields + 1 } else s
  if f.category = .PREMIUM ∧ f.confidence ≥ 7/10 then
    { s with total_premium_amount := s.total_premium_amount + f.value }
  else if f.category = .COVERAGE ∧ f.confidence ≥ 7/10 then
    { s with total_coverage_amount := s.total_coverage_amount + f.value }
  else if f.category = .CLAIM ∧ f.confidence ≥ 7/10 then
    { s with total_claims_amount := s.total_claims_amount + f.value }
  else s

/-- `InsuranceParser._generate_summary`, over a given accumulated field
list. -/
def generate_summary (parsed_fields : List Field) : Summary :=
  parsed_fields.foldl summaryStep
    { by_category := [], by_currency := [], high_confidence_fields := 0,
      total_premium_amount := 0, total_coverage_amount := 0, total_claims_amount := 0 }

/-- Stable descending insertion by confidence: `f` goes after every
element with confidence `≥ f.confidence`.  The result coincides with
Python's stable `list.sort(key=..., reverse=True)`. -/
def insertDesc (f : Field) : List Field → List Field
  | [] => [f]
  | g :: t => if g.confidence < f.confidence then f :: g :: t else g :: insertDesc f t

/-- `self.parsed_fields.sort(key=lambda x: x.confidence, reverse=True)`. -/
def sortDesc (l : List Field) : List Field := l.foldl (fun acc f => insertDesc f acc) []

/-- The mutable state of an `InsuranceParser` instance. -/
structure ParserSt where
  document_text : Str
  lines : List Str
  parsed_fields : List Field
deriving DecidableEq, Repr

/-- `InsuranceParser.__init__`. -/
def initSt (document_text : Str) : ParserSt :=
  { document_text := document_text, lines := splitNl document_text, parsed_fields := [] }

/-- The `metadata` part of a parse result (`extraction_date`, a wall-clock
timestamp, is outside the model). -/
structure Metadata where
  total_fields_extracted : Nat
  pattern_matches : Nat
  context_matches : Nat
  parser_version : Str
deriving DecidableEq, Repr

/-- The result dictionary of `parse` (fields are kept as `Field` records;
`to_dict` serialization is outside the extraction core). -/
structure ParseResult where
  metadata : Metadata
  fields : List Field
  summary : Summary
deriving DecidableEq, Repr

/-- `InsuranceParser.parse`: runs the three strategies, extending the
instance's accumulated `parsed_fields` (which persists across calls),
sorts by confidence and builds the result. -/
def parse (st : ParserSt) (include_all_amounts : Bool) : ParserSt × ParseResult :=
  let pattern_results := parse_with_patterns st.document_text
  let acc1 := st.parsed_fields ++ pattern_results
  let context_results := parse_context_aware st.lines acc1
  let acc2 := acc1 ++ context_results
  let all_amounts := if include_all_amounts then parse_all_amounts st.lines acc2 else []
  let acc3 := acc2 ++ all_amounts
  let sorted := sortDesc acc3
  ({ st with parsed_fields := sorted },
   { metadata := { total_fields_extracted := sorted.length,
                   pattern_matches := pattern_results.length,
                   context_matches := context_results.length,
                   parser_version := "1.0.0".data },
     fields := sorted,
     summary := generate_summary sorted })

/-- A candidate of the context scanner on `lines`: a keyword-bearing line
`i` whose amount pattern yields a positive parsed value `v`.  Whether a
candidate is emitted depends only on the accumulated fields. -/
def ctxCand (lines : List Str) (i : Nat) (v : ℚ) : Prop :=
  ∃ line kw m, (i, line) ∈ enum1 lines ∧ kw ∈ keywords
    ∧ containsStr (lower line) kw = true ∧ m ∈ finditer ctxAmountRe line
    ∧ extract_number (group1 line m) = some v ∧ 0 < v

/-- A candidate of the exhaustive scanner on `lines`. -/
def allCand (lines : List Str) (i : Nat) (v : ℚ) : Prop :=
  ∃ line m, (i, line) ∈ enum1 lines ∧ m ∈ finditer allAmountRe line
    ∧ extract_number (group1 line m) = some v ∧ 0 < v

/-! ## Lemmas -/

/- Batteries marks the `Rat` field operations `@[irreducible]`, which
blocks `decide` from evaluating concrete parses; restore the default
reducibility for this file so concrete runs reduce. -/
attribute [local semireducible] Rat.add Rat.mul Rat.inv Rat.sub

theorem minQ_eq_min (a b : ℚ) : minQ a b = min a b := by
  rw [minQ, min_def]

theorem absQ_eq_abs (q : ℚ) : absQ q = |q| := by
  rw [absQ]
  split_ifs with h
  · exact (abs_of_neg h).symm
  · exact (abs_of_nonneg (not_lt.mp h)).symm

/-! ### Substring containment -/

theorem containsStr_iff (hay needle : Str) :
    containsStr hay needle = true ↔ needle <:+: hay := by
  induction hay with
  | nil =>
    simp only [containsStr, List.isEmpty_iff]
    exact ⟨fun h => h ▸ List.infix_rfl, fun h => List.eq_nil_of_infix_nil h⟩
  | cons c t ih =>
    simp only [containsStr, Bool.or_eq_true, List.isPrefixOf_iff_prefix, ih,
      List.infix_cons_iff]

theorem contains_append_single {r : Str} {x : Char} {P : Char → Bool}
    (hr : ∀ c ∈ r, P c = true) (hx : P x = false) :
    ∀ {a b : Str}, r <:+: a ++ x :: b ↔ (r <:+: a ∨ r <:+: b) := by
  have hxr : x ∉ r := fun hm => by have := hr x hm; rw [hx] at this; cases this
  intro a b
  constructor
  · intro h
    induction a with
    | nil =>
      rcases List.infix_cons_iff.mp h with hpre | hinf
      · cases r with
        | nil => exact Or.inl List.nil_infix
        | cons rc rt =>
          have hcx : rc = x := (List.cons_prefix_cons.mp hpre).1
          exact absurd (hcx ▸ List.mem_cons_self rc rt) hxr
      · exact Or.inr hinf
    | cons ac at' ih =>
      rcases List.infix_cons_iff.mp h with hpre | hinf
      · have hrt : r = ((ac :: at') ++ x :: b).take r.length :=
          List.prefix_iff_eq_take.mp hpre
        by_cases hlen : r.length ≤ (ac :: at').length
        · left
          rw [List.take_append_of_le_length hlen] at hrt
          have hpre2 : r <+: ac :: at' := by
            rw [hrt]; exact List.take_prefix r.length (ac :: at')
          exact hpre2.isInfix
        · exfalso
          push_neg at hlen
          apply hxr
          rw [hrt, List.take_append_eq_append_take,
            List.take_of_length_le (le_of_lt hlen)]
          have hpos : 1 ≤ r.length - (ac :: at').length := by omega
          refine List.mem_append_right _ ?_
          obtain ⟨k, hk⟩ : ∃ k, r.length - (ac :: at').length = k + 1 :=
            ⟨_, (Nat.succ_pred_eq_of_pos hpos).symm⟩
          rw [hk, List.take_succ_cons]
          exact List.mem_cons_self x _
      · rcases ih hinf with h1 | h2
        · obtain ⟨pre, post, hdec⟩ := h1
          exact Or.inl ⟨ac :: pre, post, by rw [← hdec]; rfl⟩
        · exact Or.inr h2
  · rintro (h | h)
    · obtain ⟨pre, post, hdec⟩ := h
      exact ⟨pre, post ++ x :: b, by rw [← hdec]; simp⟩
    · obtain ⟨pre, post, hdec⟩ := h
      exact ⟨a ++ x :: pre, post, by rw [← hdec]; simp⟩

/-! ### Synthesized field names `<keyword>_line_<N>` -/

theorem natDigsAux_mem : ∀ (fuel n : Nat), ∀ c ∈ natDigsAux fuel n, c ∈ digits10 := by
  intro fuel
  induction fuel with
  | zero => intro n c hc; exact absurd hc (List.not_mem_nil c)
  | succ fuel ih =>
    intro n
    rw [natDigsAux]
    split
    · intro c hc
      rw [List.mem_singleton] at hc
      subst hc
      rename_i h
      interval_cases n <;> decide
    · intro c hc
      rcases List.mem_append.mp hc with h1 | h2
      · exact ih (n / 10) c h1
      · rw [List.mem_singleton] at h2
        subst h2
        have hm : n % 10 < 10 := Nat.mod_lt _ (by omega)
        set m := n % 10 with hmdef
        interval_cases m <;> decide

theorem natDigs_mem (n : Nat) : ∀ c ∈ natDigs n, c ∈ digits10 :=
  natDigsAux_mem (n + 1) n

theorem lower_natDigs (n : Nat) : lower (natDigs n) = natDigs n := by
  have h : ∀ c ∈ natDigs n, c.toLower = c := by
    intro c hc
    have := natDigs_mem n c hc
    fin_cases this <;> decide
  calc lower (natDigs n) = (natDigs n).map id := List.map_congr_left h
    _ = natDigs n := List.map_id _

/-- A nonempty lowercase-letter rule word occurs in the synthesized name
`kw ++ "_line_" ++ digits` exactly when it occurs in the keyword: an
occurrence cannot contain `'_'` or a digit and cannot sit inside
`"line"`. -/
theorem containsName (kw ds r : Str) (hr : ∀ c ∈ r, c.isLower = true)
    (hrne : r ≠ []) (hlr : ¬ r <:+: ("line".data))
    (hds : ∀ c ∈ ds, c ∈ digits10) :
    containsStr (kw ++ "_line_".data ++ ds) r = containsStr kw r := by
  have hsplit : kw ++ "_line_".data ++ ds = kw ++ '_' :: ("line".data ++ '_' :: ds) := by
    simp
  have hund : Char.isLower '_' = false := by decide
  have hdsr : ¬ r <:+: ds := by
    intro h
    cases r with
    | nil => exact hrne rfl
    | cons rc rt =>
      have hmem : rc ∈ ds := h.subset (List.mem_cons_self rc rt)
      have hlow := hr rc (List.mem_cons_self rc rt)
      have := hds rc hmem
      fin_cases this <;> simp_all
  rw [Bool.eq_iff_iff, containsStr_iff, containsStr_iff, hsplit,
    contains_append_single hr hund, contains_append_single hr hund]
  constructor
  · rintro (h | h | h)
    · exact h
    · exact absurd h hlr
    · exact absurd h hdsr
  · exact fun h => Or.inl h

/-- Categorizing a synthesized `<keyword>_line_<N>` name gives the same
category as categorizing the keyword itself. -/
theorem categorize_line_name (kw : Str) (n : Nat) (hkw : lower kw = kw) :
    categorize_field (kw ++ "_line_".data ++ natDigs n) = categorize_field kw := by
  have hds := natDigs_mem n
  have hlow : lower (kw ++ "_line_".data ++ natDigs n)
      = kw ++ "_line_".data ++ natDigs n := by
    simp only [lower, List.map_append] at hkw ⊢
    rw [hkw, show List.map Char.toLower "_line_".data = "_line_".data from by decide,
      show List.map Char.toLower (natDigs n) = natDigs n from lower_natDigs n]
  simp only [categorize_field]
  rw [hlow, hkw]
  rw [containsName kw _ "premium".data (by decide) (by decide) (by decide) hds,
    containsName kw _ "claim".data (by decide) (by decide) (by decide) hds,
    containsName kw _ "deductible".data (by decide) (by decide) (by decide) hds,
    containsName kw _ "copay".data (by decide) (by decide) (by decide) hds,
    containsName kw _ "tax".data (by decide) (by decide) (by decide) hds,
    containsName kw _ "gst".data (by decide) (by decide) (by decide) hds,
    containsName kw _ "fee".data (by decide) (by decide) (by decide) hds,
    containsName kw _ "charge".data (by decide) (by decide) (by decide) hds,
    containsName kw _ "coverage".data (by decide) (by decide) (by decide) hds,
    containsName kw _ "insured".data (by decide) (by decide) (by decide) hds,
    containsName kw _ "benefit".data (by decide) (by decide) (by decide) hds,
    containsName kw _ "limit".data (by decide) (by decide) (by decide) hds,
    containsName kw _ "maximum".data (by decide) (by decide) (by decide) hds]

/-! ### Sorting is a permutation -/

theorem insertDesc_perm (f : Field) (l : List Field) :
    List.Perm (insertDesc f l) (f :: l) := by
  induction l with
  | nil => exact List.Perm.refl _
  | cons g t ih =>
    simp only [insertDesc]
    split
    · exact List.Perm.refl _
    · exact (ih.cons g).trans (List.Perm.swap f g t)

theorem sortFold_perm : ∀ (l acc : List Field),
    List.Perm (l.foldl (fun acc f => insertDesc f acc) acc) (acc ++ l) := by
  intro l
  induction l with
  | nil => intro acc; simp
  | cons f t ih =>
    intro acc
    have h1 : List.Perm (t.foldl (fun acc f => insertDesc f acc) (insertDesc f acc))
        (insertDesc f acc ++ t) := ih _
    have h2 : List.Perm (insertDesc f acc ++ t) ((f :: acc) ++ t) :=
      (insertDesc_perm f acc).append_right t
    have h3 : List.Perm ((f :: acc) ++ t) (acc ++ f :: t) := by
      rw [List.cons_append]
      exact List.perm_middle.symm
    exact (h1.trans h2).trans h3

theorem sortDesc_perm (l : List Field) : List.Perm (sortDesc l) l := by
  simpa using sortFold_perm l []

theorem mem_sortDesc {f : Field} {l : List Field} : f ∈ sortDesc l ↔ f ∈ l :=
  (sortDesc_perm l).mem_iff

theorem length_sortDesc (l : List Field) : (sortDesc l).length = l.length :=
  (sortDesc_perm l).length_eq

/-! ### Line splitting -/

theorem splitOnChar_ne_nil (sep : Char) (s : Str) : splitOnChar sep s ≠ [] := by
  induction s with
  | nil => simp [splitOnChar]
  | cons c t ih =>
    simp only [splitOnChar]
    split
    · simp
    · match h : splitOnChar sep t with
      | [] => exact absurd h ih
      | a :: r => simp

theorem splitOnChar_length (sep : Char) (s : Str) :
    (splitOnChar sep s).length = s.count sep + 1 := by
  induction s with
  | nil => simp [splitOnChar]
  | cons c t ih =>
    simp only [splitOnChar]
    split
    · rename_i h
      subst h
      simp [List.count_cons, ih]
    · rename_i h
      match hs : splitOnChar sep t with
      | [] => exact absurd hs (splitOnChar_ne_nil sep t)
      | a :: r =>
        rw [hs] at ih
        simp only [List.length_cons] at ih ⊢
        rw [List.count_cons]
        simp only [beq_iff_eq]
        rw [if_neg h]
        omega

/-! ### Membership in the context and exhaustive passes -/

theorem mem_ctx_iff (lines : List Str) (parsed : List Field) (f : Field) :
    f ∈ parse_context_aware lines parsed ↔
      ∃ i line kw m v, (i, line) ∈ enum1 lines ∧ kw ∈ keywords ∧
        containsStr (lower line) kw = true ∧ m ∈ finditer ctxAmountRe line ∧
        extract_number (group1 line m) = some v ∧ 0 < v ∧
        alreadyExtracted parsed i v = false ∧ f = mkCtxField kw i line v := by
  simp only [parse_context_aware, List.mem_flatMap]
  constructor
  · rintro ⟨il, hil, kw, hkw, hf⟩
    split at hf
    · obtain ⟨m, hm, heq⟩ := List.mem_filterMap.mp hf
      cases hx : extract_number (group1 il.2 m) with
      | none => simp only [hx] at heq; exact Option.noConfusion heq
      | some v =>
        simp only [hx] at heq
        split at heq
        · split at heq
          · exact Option.noConfusion heq
          · rename_i hpos hae
            rw [Bool.not_eq_true] at hae
            refine ⟨il.1, il.2, kw, m, v, hil, hkw, by assumption, hm, hx, hpos.2,
              hae, (Option.some_inj.mp heq).symm⟩
        · exact Option.noConfusion heq
    · exact absurd hf (List.not_mem_nil f)
  · rintro ⟨i, line, kw, m, v, hil, hkw, hc, hm, hx, hv, hae, rfl⟩
    refine ⟨(i, line), hil, kw, hkw, ?_⟩
    rw [if_pos hc]
    refine List.mem_filterMap.mpr ⟨m, hm, ?_⟩
    simp only [hx, hae]
    rw [if_pos ⟨ne_of_gt hv, hv⟩]
    simp

theorem mem_all_iff (lines : List Str) (parsed : List Field) (f : Field) :
    f ∈ parse_all_amounts lines parsed ↔
      ∃ i line m v, (i, line) ∈ enum1 lines ∧
        m ∈ finditer allAmountRe line ∧
        extract_number (group1 line m) = some v ∧ 0 < v ∧
        alreadyExtracted parsed i v = false ∧ f = mkAllField i line m v := by
  simp only [parse_all_amounts, List.mem_flatMap]
  constructor
  · rintro ⟨il, hil, hf⟩
    obtain ⟨m, hm, heq⟩ := List.mem_filterMap.mp hf
    cases hx : extract_number (group1 il.2 m) with
    | none => simp only [hx] at heq; exact Option.noConfusion heq
    | some v =>
      simp only [hx] at heq
      split at heq
      · split at heq
        · exact Option.noConfusion heq
        · rename_i hpos hae
          rw [Bool.not_eq_true] at hae
          exact ⟨il.1, il.2, m, v, hil, hm, hx, hpos.2,
            hae, (Option.some_inj.mp heq).symm⟩
      · exact Option.noConfusion heq
  · rintro ⟨i, line, m, v, hil, hm, hx, hv, hae, rfl⟩
    refine ⟨(i, line), hil, List.mem_filterMap.mpr ⟨m, hm, ?_⟩⟩
    simp only [hx, hae]
    rw [if_pos ⟨ne_of_gt hv, hv⟩]
    simp

/-! ### The pattern matcher keeps one field per table entry -/

theorem mkPatField_name (doc name : Str) (m : RMatch) (v : ℚ) :
    (mkPatField doc name m v).field_name = name := rfl

theorem pmPatLoop_eq (doc name : Str) (pats : List Re) (results : List Field)
    (h : ∀ f ∈ results, f.field_name ≠ name) :
    pmPatLoop doc name pats results = results ++ (pmEntry doc name pats).toList := by
  induction pats generalizing results with
  | nil => simp [pmPatLoop, pmEntry]
  | cons re rest ih =>
    simp only [pmPatLoop]
    cases hfp : firstParseable doc re with
    | some mv =>
      simp only [hfp, List.getLast?_concat]
      rw [if_pos (mkPatField_name doc name mv.1 mv.2)]
      simp [pmEntry, List.findSome?_cons, hfp]
    | none =>
      simp only [hfp]
      cases hR : results.getLast? with
      | none =>
        simp only [hR, ih results h]
        simp [pmEntry, List.findSome?_cons, hfp]
      | some f =>
        have hfmem : f ∈ results :=
          List.mem_of_mem_getLast? (Option.mem_def.mpr hR)
        simp only [hR]
        rw [if_neg (h f hfmem), ih results h]
        simp [pmEntry, List.findSome?_cons, hfp]

theorem pmEntry_name (doc name : Str) (pats : List Re) (f : Field)
    (hf : f ∈ (pmEntry doc name pats).toList) : f.field_name = name := by
  cases h : pmEntry doc name pats with
  | none => rw [h] at hf; exact absurd hf (List.not_mem_nil f)
  | some g =>
    rw [h] at hf
    rw [show (some g).toList = [g] from rfl, List.mem_singleton] at hf
    subst hf
    simp only [pmEntry, Option.map_eq_some'] at h
    obtain ⟨mv, _, rfl⟩ := h
    rfl

theorem pm_foldl_eq (doc : Str) (entries : List (Str × List Re)) (acc : List Field)
    (hnd : (entries.map Prod.fst).Nodup)
    (h : ∀ f ∈ acc, ∀ e ∈ entries, f.field_name ≠ e.1) :
    entries.foldl (fun results e => pmPatLoop doc e.1 e.2 results) acc
      = acc ++ entries.flatMap (fun e => (pmEntry doc e.1 e.2).toList) := by
  induction entries generalizing acc with
  | nil => simp
  | cons e rest ih =>
    simp only [List.foldl_cons]
    rw [pmPatLoop_eq doc e.1 e.2 acc (fun f hf => h f hf e (List.mem_cons_self e rest))]
    rw [List.map_cons, List.nodup_cons] at hnd
    rw [ih (acc ++ (pmEntry doc e.1 e.2).toList) hnd.2 ?_]
    · simp [List.flatMap_cons]
    · intro f hf e' he'
      rcases List.mem_append.mp hf with h1 | h2
      · exact h f h1 e' (List.mem_cons_of_mem e he')
      · rw [pmEntry_name doc e.1 e.2 f h2]
        intro hcontra
        exact hnd.1 (hcontra ▸ List.mem_map_of_mem Prod.fst he')

theorem parse_with_patterns_eq (doc : Str) :
    parse_with_patterns doc
      = FIELD_PATTERNS.flatMap (fun e => (pmEntry doc e.1 e.2).toList) := by
  have hnd : (FIELD_PATTERNS.map Prod.fst).Nodup := by decide
  simpa using pm_foldl_eq doc FIELD_PATTERNS [] hnd (by simp)

theorem pm_filter_name_nil (doc name : Str) (entries : List (Str × List Re))
    (hno : ∀ e ∈ entries, e.1 ≠ name) :
    (entries.flatMap (fun e => (pmEntry doc e.1 e.2).toList)).filter
        (fun f => decide (f.field_name = name)) = [] := by
  rw [List.filter_eq_nil_iff]
  intro f hf
  obtain ⟨e, he, hfe⟩ := List.mem_flatMap.mp hf
  simp only [decide_eq_true_eq]
  rw [pmEntry_name doc e.1 e.2 f hfe]
  exact hno e he

theorem pm_count_le_one (doc name : Str) (entries : List (Str × List Re))
    (hnd : (entries.map Prod.fst).Nodup) :
    ((entries.flatMap (fun e => (pmEntry doc e.1 e.2).toList)).filter
        (fun f => decide (f.field_name = name))).length ≤ 1 := by
  induction entries with
  | nil => simp
  | cons e rest ih =>
    rw [List.map_cons, List.nodup_cons] at hnd
    rw [List.flatMap_cons, List.filter_append, List.length_append]
    by_cases hname : e.1 = name
    · have hrest : ((rest.flatMap (fun e => (pmEntry doc e.1 e.2).toList)).filter
          (fun f => decide (f.field_name = name))).length = 0 := by
        rw [List.length_eq_zero]
        refine pm_filter_name_nil doc name rest ?_
        intro e' he' hcontra
        exact hnd.1 (hname ▸ hcontra ▸ List.mem_map_of_mem Prod.fst he')
      rw [hrest]
      have hlen : ((pmEntry doc e.1 e.2).toList.filter
          (fun f => decide (f.field_name = name))).length ≤ 1 := by
        cases pmEntry doc e.1 e.2 with
        | none => simp
        | some g =>
          simp only [Option.toList_some]
          exact (List.length_filter_le _ _).trans (by simp)
      omega
    · have hhead : ((pmEntry doc e.1 e.2).toList.filter
          (fun f => decide (f.field_name = name))).length = 0 := by
        rw [List.length_eq_zero, List.filter_eq_nil_iff]
        intro f hf
        simp only [decide_eq_true_eq]
        rw [pmEntry_name doc e.1 e.2 f hf]
        exact hname
      rw [hhead]
      simpa using ih hnd.2

/-! ### Summary fold -/

theorem summaryStep_tpa (s : Summary) (f : Field) :
    (summaryStep s f).total_premium_amount =
      s.total_premium_amount
        + (if f.category = Cat.PREMIUM ∧ f.confidence ≥ 7/10 then f.value else 0) := by
  simp only [summaryStep]
  split_ifs <;> simp_all

theorem summaryStep_tca (s : Summary) (f : Field) :
    (summaryStep s f).total_coverage_amount =
      s.total_coverage_amount
        + (if f.category = Cat.COVERAGE ∧ f.confidence ≥ 7/10 then f.value else 0) := by
  simp only [summaryStep]
  split_ifs <;> simp_all

theorem summaryStep_tcl (s : Summary) (f : Field) :
    (summaryStep s f).total_claims_amount =
      s.total_claims_amount
        + (if f.category = Cat.CLAIM ∧ f.confidence ≥ 7/10 then f.value else 0) := by
  simp only [summaryStep]
  split_ifs <;> simp_all

theorem summaryStep_hcf (s : Summary) (f : Field) :
    (summaryStep s f).high_confidence_fields =
      s.high_confidence_fields + (if f.confidence ≥ 8/10 then 1 else 0) := by
  simp only [summaryStep]
  split_ifs <;> simp_all

theorem foldl_summary_tpa (l : List Field) : ∀ s : Summary,
    (l.foldl summaryStep s).total_premium_amount
      = s.total_premium_amount
        + ((l.filter (fun f =>
            decide (f.category = Cat.PREMIUM ∧ f.confidence ≥ 7/10))).map Field.value).sum := by
  induction l with
  | nil => intro s; simp
  | cons f t ih =>
    intro s
    rw [List.foldl_cons, ih (summaryStep s f), summaryStep_tpa, List.filter_cons]
    by_cases h : f.category = Cat.PREMIUM ∧ f.confidence ≥ 7/10
    · rw [if_pos h, if_pos (show decide (f.category = Cat.PREMIUM ∧ f.confidence ≥ 7/10) = true by simpa using h), List.map_cons, List.sum_cons]
      ring
    · rw [if_neg h, if_neg (show ¬ decide (f.category = Cat.PREMIUM ∧ f.confidence ≥ 7/10) = true by simpa using h)]
      ring

theorem foldl_summary_tca (l : List Field) : ∀ s : Summary,
    (l.foldl summaryStep s).total_coverage_amount
      = s.total_coverage_amount
        + ((l.filter (fun f =>
            decide (f.category = Cat.COVERAGE ∧ f.confidence ≥ 7/10))).map Field.value).sum := by
  induction l with
  | nil => intro s; simp
  | cons f t ih =>
    intro s
    rw [List.foldl_cons, ih (summaryStep s f), summaryStep_tca, List.filter_cons]
    by_cases h : f.category = Cat.COVERAGE ∧ f.confidence ≥ 7/10
    · rw [if_pos h, if_pos (show decide (f.category = Cat.COVERAGE ∧ f.confidence ≥ 7/10) = true by simpa using h), List.map_cons, List.sum_cons]
      ring
    · rw [if_neg h, if_neg (show ¬ decide (f.category = Cat.COVERAGE ∧ f.confidence ≥ 7/10) = true by simpa using h)]
      ring

theorem foldl_summary_tcl (l : List Field) : ∀ s : Summary,
    (l.foldl summaryStep s).total_claims_amount
      = s.total_claims_amount
        + ((l.filter (fun f =>
            decide (f.category = Cat.CLAIM ∧ f.confidence ≥ 7/10))).map Field.value).sum := by
  induction l with
  | nil => intro s; simp
  | cons f t ih =>
    intro s
    rw [List.foldl_cons, ih (summaryStep s f), summaryStep_tcl, List.filter_cons]
    by_cases h : f.category = Cat.CLAIM ∧ f.confidence ≥ 7/10
    · rw [if_pos h, if_pos (show decide (f.category = Cat.CLAIM ∧ f.confidence ≥ 7/10) = true by simpa using h), List.map_cons, List.sum_cons]
      ring
    · rw [if_neg h, if_neg (show ¬ decide (f.category = Cat.CLAIM ∧ f.confidence ≥ 7/10) = true by simpa using h)]
      ring

theorem foldl_summary_hcf (l : List Field) : ∀ s : Summary,
    (l.foldl summaryStep s).high_confidence_fields
      = s.high_confidence_fields
        + l.countP (fun f => decide (f.confidence ≥ 8/10)) := by
  induction l with
  | nil => intro s; simp
  | cons f t ih =>
    intro s
    rw [List.foldl_cons, ih (summaryStep s f), summaryStep_hcf, List.countP_cons]
    by_cases h : f.confidence ≥ 8/10
    · simp [h]
      omega
    · simp [h]

/-! ### Line-number bookkeeping -/

theorem enum1_bounds {lines : List Str} {i : Nat} {line : Str}
    (h : (i, line) ∈ enum1 lines) : 1 ≤ i ∧ i ≤ lines.length := by
  have hmem := (List.of_mem_zip h).1
  rw [List.mem_range'_1] at hmem
  omega

theorem mem_parse_fields {doc : Str} {flag : Bool} {f : Field}
    (hf : f ∈ (parse (initSt doc) flag).2.fields) :
    f ∈ parse_with_patterns doc
    ∨ f ∈ parse_context_aware (splitNl doc) (parse_with_patterns doc)
    ∨ (flag = true ∧ f ∈ parse_all_amounts (splitNl doc)
        (parse_with_patterns doc
          ++ parse_context_aware (splitNl doc) (parse_with_patterns doc))) := by
  simp only [parse, initSt, List.nil_append] at hf
  rw [mem_sortDesc] at hf
  rcases List.mem_append.mp hf with h1 | h2
  · rcases List.mem_append.mp h1 with h3 | h4
    · exact Or.inl h3
    · exact Or.inr (Or.inl h4)
  · cases flag with
    | false => simp at h2
    | true => exact Or.inr (Or.inr ⟨rfl, by simpa using h2⟩)


/-! ## Claims -/

theorem detectLoop_eq_find (text : Str) (l : List (Str × Str)) :
    detectLoop text l
      = ((l.find? fun sc => containsStr text sc.1).map Prod.snd).getD "INR".data := by
  induction l with
  | nil => rfl
  | cons sc rest ih =>
    simp only [detectLoop, List.find?]
    cases h : containsStr text sc.1 with
    | true => simp
    | false => simpa using ih

/-- Claim C8: for every text, `detect_currency` returns the code of the first
marker in the fixed priority order ₹, Rs., Rs, INR, $, USD, €, EUR, £, GBP
that occurs as a substring of the text, and INR when none occurs. -/
theorem C8_detect_currency_first_marker (text : Str) :
    detect_currency text =
      ((([("₹".data, "INR".data), ("Rs.".data, "INR".data), ("Rs".data, "INR".data),
          ("INR".data, "INR".data), ("$".data, "USD".data), ("USD".data, "USD".data),
          ("€".data, "EUR".data), ("EUR".data, "EUR".data), ("£".data, "GBP".data),
          ("GBP".data, "GBP".data)] : List (Str × Str)).find?
            (fun sc => containsStr text sc.1)).map Prod.snd).getD "INR".data :=
  detectLoop_eq_find text CURRENCY_SYMBOLS

/-- Claim C4: the confidence scorer returns 0.5 plus 0.1 when the context
contains "₹" or "Rs", plus 0.2 when the underscore-normalized field name
occurs in the lower-cased context, plus 0.1 when the value is strictly
positive, plus 0.1 when the context matches the grouped-number pattern,
clamped to at most 1.0; the result always lies in [0.5, 1.0]. -/
theorem C4_confidence_score_formula (field_name : Str) (value : ℚ) (context : Str) :
    calculate_confidence field_name value context =
      min ((1:ℚ)/2
        + (if containsStr context "₹".data || containsStr context "Rs".data then 1/10 else 0)
        + (if containsStr (lower context)
              ((lower field_name).map (fun c => if c = '_' then ' ' else c)) then 1/5 else 0)
        + (if 0 < value then 1/10 else 0)
        + (if reSearch groupedRe context then 1/10 else 0)) 1
    ∧ 1/2 ≤ calculate_confidence field_name value context
    ∧ calculate_confidence field_name value context ≤ 1 := by
  simp only [calculate_confidence, List.foldl_cons, List.foldl_nil, decide_eq_true_eq,
    minQ_eq_min]
  refine ⟨?_, ?_, ?_⟩
  · congr 1
    split_ifs <;> norm_num
  · refine le_min ?_ (by norm_num)
    split_ifs <;> norm_num
  · exact min_le_right _ _

/-- Claim C7: the generated summary sums `value` over fields of category
PREMIUM (resp. COVERAGE, CLAIM) with confidence at least 0.7, starting
from 0, and counts fields with confidence at least 0.8. -/
theorem C7_summary_totals (fields : List Field) :
    (generate_summary fields).total_premium_amount
        = ((fields.filter (fun f =>
            decide (f.category = Cat.PREMIUM ∧ f.confidence ≥ 7/10))).map Field.value).sum
    ∧ (generate_summary fields).total_coverage_amount
        = ((fields.filter (fun f =>
            decide (f.category = Cat.COVERAGE ∧ f.confidence ≥ 7/10))).map Field.value).sum
    ∧ (generate_summary fields).total_claims_amount
        = ((fields.filter (fun f =>
            decide (f.category = Cat.CLAIM ∧ f.confidence ≥ 7/10))).map Field.value).sum
    ∧ (generate_summary fields).high_confidence_fields
        = fields.countP (fun f => decide (f.confidence ≥ 8/10)) := by
  refine ⟨?_, ?_, ?_, ?_⟩
  · simpa [generate_summary] using foldl_summary_tpa fields
      { by_category := [], by_currency := [], high_confidence_fields := 0,
        total_premium_amount := 0, total_coverage_amount := 0, total_claims_amount := 0 }
  · simpa [generate_summary] using foldl_summary_tca fields
      { by_category := [], by_currency := [], high_confidence_fields := 0,
        total_premium_amount := 0, total_coverage_amount := 0, total_claims_amount := 0 }
  · simpa [generate_summary] using foldl_summary_tcl fields
      { by_category := [], by_currency := [], high_confidence_fields := 0,
        total_premium_amount := 0, total_coverage_amount := 0, total_claims_amount := 0 }
  · simpa [generate_summary] using foldl_summary_hcf fields
      { by_category := [], by_currency := [], high_confidence_fields := 0,
        total_premium_amount := 0, total_coverage_amount := 0, total_claims_amount := 0 }

/-- Claim C6: the parse of the empty document yields zero extracted fields,
empty summary maps and an empty field list, for either flag value (the
embedded extraction core is a total function, so no failure can arise). -/
theorem C6_empty_document_total (flag : Bool) :
    (parse (initSt "".data) flag).2.metadata.total_fields_extracted = 0
    ∧ (parse (initSt "".data) flag).2.summary.by_category = []
    ∧ (parse (initSt "".data) flag).2.summary.by_currency = []
    ∧ (parse (initSt "".data) flag).2.fields = [] := by
  cases flag
  · exact ⟨by decide, by decide, by decide, by decide⟩
  · exact ⟨by decide, by decide, by decide, by decide⟩

/-! ### Duplicate suppression across passes -/

theorem alreadyExtracted_mono {p1 p2 : List Field} (hsub : ∀ g ∈ p1, g ∈ p2)
    {i : Nat} {v : ℚ} (h : alreadyExtracted p1 i v = true) :
    alreadyExtracted p2 i v = true := by
  rw [alreadyExtracted, List.any_eq_true] at h ⊢
  obtain ⟨g, hg, hp⟩ := h
  exact ⟨g, hsub g hg, hp⟩

theorem ctx_pass_nil (lines : List Str) (parsed : List Field)
    (h : ∀ i v, ctxCand lines i v → alreadyExtracted parsed i v = true) :
    parse_context_aware lines parsed = [] := by
  rw [List.eq_nil_iff_forall_not_mem]
  intro f hf
  obtain ⟨i, line, kw, m, v, hil, hkw, hc, hm, hx, hv, hae, rfl⟩ :=
    (mem_ctx_iff _ _ _).mp hf
  have := h i v ⟨line, kw, m, hil, hkw, hc, hm, hx, hv⟩
  rw [this] at hae
  cases hae

theorem ctx_pass_witness (lines : List Str) (parsed : List Field) (i : Nat) (v : ℚ)
    (hc : ctxCand lines i v) :
    alreadyExtracted (parsed ++ parse_context_aware lines parsed) i v = true := by
  obtain ⟨line, kw, m, hil, hkw, hcont, hm, hx, hv⟩ := hc
  cases hae : alreadyExtracted parsed i v with
  | true =>
    rw [alreadyExtracted, List.any_eq_true] at hae
    rw [alreadyExtracted, List.any_eq_true]
    obtain ⟨g, hg, hgp⟩ := hae
    exact ⟨g, List.mem_append_left _ hg, hgp⟩
  | false =>
    have hfmem : mkCtxField kw i line v ∈ parse_context_aware lines parsed :=
      (mem_ctx_iff _ _ _).mpr ⟨i, line, kw, m, v, hil, hkw, hcont, hm, hx, hv, hae, rfl⟩
    rw [alreadyExtracted, List.any_eq_true]
    refine ⟨mkCtxField kw i line v, List.mem_append_right _ hfmem, ?_⟩
    norm_num [mkCtxField, absQ]

theorem all_pass_nil (lines : List Str) (parsed : List Field)
    (h : ∀ i v, allCand lines i v → alreadyExtracted parsed i v = true) :
    parse_all_amounts lines parsed = [] := by
  rw [List.eq_nil_iff_forall_not_mem]
  intro f hf
  obtain ⟨i, line, m, v, hil, hm, hx, hv, hae, rfl⟩ := (mem_all_iff _ _ _).mp hf
  have := h i v ⟨line, m, hil, hm, hx, hv⟩
  rw [this] at hae
  cases hae

theorem all_pass_witness (lines : List Str) (parsed : List Field) (i : Nat) (v : ℚ)
    (hc : allCand lines i v) :
    alreadyExtracted (parsed ++ parse_all_amounts lines parsed) i v = true := by
  obtain ⟨line, m, hil, hm, hx, hv⟩ := hc
  cases hae : alreadyExtracted parsed i v with
  | true =>
    rw [alreadyExtracted, List.any_eq_true] at hae
    rw [alreadyExtracted, List.any_eq_true]
    obtain ⟨g, hg, hgp⟩ := hae
    exact ⟨g, List.mem_append_left _ hg, hgp⟩
  | false =>
    have hfmem : mkAllField i line m v ∈ parse_all_amounts lines parsed :=
      (mem_all_iff _ _ _).mpr ⟨i, line, m, v, hil, hm, hx, hv, hae, rfl⟩
    rw [alreadyExtracted, List.any_eq_true]
    refine ⟨mkAllField i line m v, List.mem_append_right _ hfmem, ?_⟩
    norm_num [mkAllField, absQ]

/-- Claim C3: the pattern matcher emits at most one field per field-name
table entry; per entry it tries the patterns in listed order and, for the
first pattern with a parseable numeric capture, keeps only that pattern's
first parseable match (in document order) and consults no further
patterns for that entry. -/
theorem C3_pattern_first_match_wins (doc : Str) :
    parse_with_patterns doc
        = FIELD_PATTERNS.flatMap (fun e =>
            ((e.2.findSome? fun re =>
                (finditer re doc).findSome? fun m =>
                  (extract_number (group1 doc m)).map fun v => (m, v)).map
              (fun mv => mkPatField doc e.1 mv.1 mv.2)).toList)
    ∧ ∀ name : Str,
        ((parse_with_patterns doc).filter
            (fun f => decide (f.field_name = name))).length ≤ 1 := by
  constructor
  · rw [parse_with_patterns_eq]
    rfl
  · intro name
    rw [parse_with_patterns_eq]
    exact pm_count_le_one doc name FIELD_PATTERNS (by decide)

/-- Claim C1 (amended): a context-scanner or exhaustive-scanner field is
deduplicated only against the fields accumulated before its pass began —
no accumulated field shares its line number with a value within 0.01.
Fields emitted within the same pass are not compared against each other,
so a single parse can still emit two fields with equal line number and
value (see the counterexample). -/
theorem C1_dedup_against_accumulated_only (lines : List Str) (parsed : List Field)
    (f : Field)
    (hf : f ∈ parse_context_aware lines parsed ∨ f ∈ parse_all_amounts lines parsed) :
    ∀ g ∈ parsed, ¬ (g.line_number = f.line_number ∧ absQ (g.value - f.value) < 1/100) := by
  intro g hg hcontra
  rcases hf with h | h
  · obtain ⟨i, line, kw, m, v, _, _, _, _, _, hv, hae, rfl⟩ := (mem_ctx_iff _ _ f).mp h
    have hture : alreadyExtracted parsed i v = true := by
      rw [alreadyExtracted, List.any_eq_true]
      refine ⟨g, hg, decide_eq_true ?_⟩
      simpa [mkCtxField] using hcontra
    rw [hture] at hae
    cases hae
  · obtain ⟨i, line, m, v, _, _, _, hv, hae, rfl⟩ := (mem_all_iff _ _ f).mp h
    have hture : alreadyExtracted parsed i v = true := by
      rw [alreadyExtracted, List.any_eq_true]
      refine ⟨g, hg, decide_eq_true ?_⟩
      simpa [mkAllField] using hcontra
    rw [hture] at hae
    cases hae

theorem C1_dedup_against_accumulated_only_witness :
    ¬ ((mkCtxField "premium".data 2 "premium 200".data 200).line_number
          = (mkCtxField "premium".data 1 "premium 100".data 100).line_number
        ∧ absQ ((mkCtxField "premium".data 2 "premium 200".data 200).value
            - (mkCtxField "premium".data 1 "premium 100".data 100).value) < 1/100) :=
  C1_dedup_against_accumulated_only (splitNl "premium 100".data)
    [mkCtxField "premium".data 2 "premium 200".data 200]
    (mkCtxField "premium".data 1 "premium 100".data 100)
    (Or.inl (by decide))
    (mkCtxField "premium".data 2 "premium 200".data 200)
    (by decide)

/-- Claim C1 fails as stated: parsing "total amount 100" emits, in one
parse call, two fields (for keywords "amount" and "total") with the same
line number and equal values — the context scanner's duplicate test never
sees fields emitted earlier in its own pass. -/
theorem C1_duplicate_line_value_cex :
    ¬ List.Pairwise
        (fun f g => ¬ (f.line_number = g.line_number ∧ absQ (f.value - g.value) < 1/100))
        ((parse (initSt "total amount 100".data) false).2.fields) := by
  decide

/-- Claim C2 fails as stated: on "premium 100" the first parse extracts one
(context) field, and a second parse on the unreset instance re-extracts
nothing — its context candidates are now duplicates of the accumulated
fields — so the count stays 1 instead of doubling. -/
theorem C2_second_parse_not_doubled_cex :
    ¬ ((parse (parse (initSt "premium 100".data) false).1 false).2.metadata.total_fields_extracted
        = 2 * (parse (initSt "premium 100".data) false).2.metadata.total_fields_extracted) := by
  decide

/-- Claim C2 (amended): a second `parse` call on the same unreset instance
re-appends exactly the pattern-matching results: every context-scanner
(and exhaustive-scanner) candidate of the second call is already
duplicated by a field accumulated during the first call, so the second
call's scanners emit nothing, and the accumulated count grows by the
pattern-match count — it doubles only when the first call's scanner
results were empty. -/
theorem C2_second_parse_adds_pattern_count (doc : Str) (flag : Bool) :
    (parse (parse (initSt doc) flag).1 flag).2.metadata.total_fields_extracted
      = (parse (initSt doc) flag).2.metadata.total_fields_extracted
        + (parse_with_patterns doc).length := by
  cases flag with
  | false =>
    set lines := splitNl doc with hlines
    set pr := parse_with_patterns doc with hpr
    set cr := parse_context_aware lines pr with hcr
    set s1 := sortDesc ((pr ++ cr) ++ []) with hs1
    have htot1 : (parse (initSt doc) false).2.metadata.total_fields_extracted
        = s1.length := rfl
    have hst1 : (parse (initSt doc) false).1 = ⟨doc, lines, s1⟩ := rfl
    have hcr2 : parse_context_aware lines (s1 ++ pr) = [] := by
      apply ctx_pass_nil
      intro i v hc
      refine alreadyExtracted_mono ?_ (ctx_pass_witness lines pr i v hc)
      intro g hg
      exact List.mem_append_left pr (mem_sortDesc.mpr (List.mem_append_left [] hg))
    have htot2 : (parse (parse (initSt doc) false).1 false).2.metadata.total_fields_extracted
        = (sortDesc (((s1 ++ pr) ++ parse_context_aware lines (s1 ++ pr)) ++ [])).length := by
      rw [hst1]
      rfl
    rw [htot2, hcr2, htot1, List.append_nil, List.append_nil, length_sortDesc,
      List.length_append]
  | true =>
    set lines := splitNl doc with hlines
    set pr := parse_with_patterns doc with hpr
    set cr := parse_context_aware lines pr with hcr
    set ar := parse_all_amounts lines (pr ++ cr) with har
    set s1 := sortDesc ((pr ++ cr) ++ ar) with hs1
    have htot1 : (parse (initSt doc) true).2.metadata.total_fields_extracted
        = s1.length := rfl
    have hst1 : (parse (initSt doc) true).1 = ⟨doc, lines, s1⟩ := rfl
    have hcr2 : parse_context_aware lines (s1 ++ pr) = [] := by
      apply ctx_pass_nil
      intro i v hc
      refine alreadyExtracted_mono ?_ (ctx_pass_witness lines pr i v hc)
      intro g hg
      exact List.mem_append_left pr (mem_sortDesc.mpr (List.mem_append_left ar hg))
    have har2 : parse_all_amounts lines ((s1 ++ pr) ++ []) = [] := by
      apply all_pass_nil
      intro i v hc
      refine alreadyExtracted_mono ?_ (all_pass_witness lines (pr ++ cr) i v hc)
      intro g hg
      exact List.mem_append_left [] (List.mem_append_left pr (mem_sortDesc.mpr hg))
    have htot2 : (parse (parse (initSt doc) true).1 true).2.metadata.total_fields_extracted
        = (sortDesc (((s1 ++ pr) ++ parse_context_aware lines (s1 ++ pr))
            ++ parse_all_amounts lines
                ((s1 ++ pr) ++ parse_context_aware lines (s1 ++ pr)))).length := by
      rw [hst1]
      rfl
    rw [htot2, hcr2, har2, htot1, List.append_nil, List.append_nil, length_sortDesc,
      List.length_append]

/-- Claim C5: every field emitted by any strategy satisfies
`category = categorize_field field_name` — including context-scanner
fields (categorized from the keyword but named `<keyword>_line_<N>`) and
exhaustive-scanner fields (fixed BENEFIT, named `amount_line_<N>`). -/
theorem C5_category_of_field_name (doc : Str) (flag : Bool) (f : Field)
    (hf : f ∈ (parse (initSt doc) flag).2.fields) :
    f.category = categorize_field f.field_name := by
  rcases mem_parse_fields hf with h | h | ⟨-, h⟩
  · rw [parse_with_patterns_eq] at h
    obtain ⟨e, he, hfe⟩ := List.mem_flatMap.mp h
    cases hpe : pmEntry doc e.1 e.2 with
    | none => rw [hpe] at hfe; exact absurd hfe (List.not_mem_nil f)
    | some g =>
      rw [hpe, show (some g).toList = [g] from rfl, List.mem_singleton] at hfe
      subst hfe
      simp only [pmEntry, Option.map_eq_some'] at hpe
      obtain ⟨mv, _, rfl⟩ := hpe
      rfl
  · obtain ⟨i, line, kw, m, v, _, hkw, _, _, _, _, _, rfl⟩ := (mem_ctx_iff _ _ f).mp h
    have hall : ∀ k ∈ keywords, lower k = k := by decide
    show categorize_field kw = categorize_field (kw ++ "_line_".data ++ natDigs i)
    exact (categorize_line_name kw i (hall kw hkw)).symm
  · obtain ⟨i, line, m, v, _, _, _, _, _, rfl⟩ := (mem_all_iff _ _ f).mp h
    show Cat.BENEFIT = categorize_field ("amount_line_".data ++ natDigs i)
    rw [show ("amount_line_".data : Str) = "amount".data ++ "_line_".data from by decide,
      categorize_line_name "amount".data i (by decide)]
    decide

theorem C5_category_of_field_name_witness :
    (mkCtxField "premium".data 1 "premium 100".data 100).category
      = categorize_field (mkCtxField "premium".data 1 "premium 100".data 100).field_name :=
  C5_category_of_field_name "premium 100".data false _ (by decide)

/-- Claim C9: every emitted field's line number is present and lies between
1 and the number of lines of the document; the pattern matcher computes
it as one plus the newline count before the match start, the scanners use
the 1-based line index. -/
theorem C9_line_number_bounds (doc : Str) (flag : Bool) (f : Field)
    (hf : f ∈ (parse (initSt doc) flag).2.fields) :
    ∃ n, f.line_number = some n ∧ 1 ≤ n ∧ n ≤ (splitNl doc).length := by
  rcases mem_parse_fields hf with h | h | ⟨-, h⟩
  · rw [parse_with_patterns_eq] at h
    obtain ⟨e, he, hfe⟩ := List.mem_flatMap.mp h
    cases hpe : pmEntry doc e.1 e.2 with
    | none => rw [hpe] at hfe; exact absurd hfe (List.not_mem_nil f)
    | some g =>
      rw [hpe, show (some g).toList = [g] from rfl, List.mem_singleton] at hfe
      subst hfe
      simp only [pmEntry, Option.map_eq_some'] at hpe
      obtain ⟨mv, _, rfl⟩ := hpe
      refine ⟨(slice doc 0 mv.1.start).count '\n' + 1, rfl, by omega, ?_⟩
      rw [splitNl, splitOnChar_length]
      have hcle : (slice doc 0 mv.1.start).count '\n' ≤ doc.count '\n' := by
        rw [show slice doc 0 mv.1.start = doc.take mv.1.start from by simp [slice]]
        exact (List.take_sublist _ _).count_le '\n'
      omega
  · obtain ⟨i, line, kw, m, v, hil, _, _, _, _, _, _, rfl⟩ := (mem_ctx_iff _ _ f).mp h
    have hb := enum1_bounds hil
    exact ⟨i, rfl, hb.1, hb.2⟩
  · obtain ⟨i, line, m, v, hil, _, _, _, _, rfl⟩ := (mem_all_iff _ _ f).mp h
    have hb := enum1_bounds hil
    exact ⟨i, rfl, hb.1, hb.2⟩

theorem C9_line_number_bounds_witness :
    ∃ n, (mkCtxField "premium".data 1 "premium 100".data 100).line_number = some n
      ∧ 1 ≤ n ∧ n ≤ (splitNl "premium 100".data).length :=
  C9_line_number_bounds "premium 100".data false _ (by decide)

/-- Claim C10: the pattern matcher does not require strict positivity — on
"Annual Premium: 0" it emits a field with value exactly 0 — while the
context and exhaustive scanners skip zero-valued parses, so a zero-valued
field can only carry extraction method "pattern_matching". -/
theorem C10_zero_value_only_pattern_matching :
    ((parse (initSt "Annual Premium: 0".data) false).2.fields.countP
        (fun f => decide (f.value = 0
          ∧ f.extraction_method = some "pattern_matching".data))) = 1
    ∧ ∀ (doc : Str) (flag : Bool) (f : Field),
        f ∈ (parse (initSt doc) flag).2.fields → f.value = 0 →
        f.extraction_method = some "pattern_matching".data := by
  constructor
  · decide
  · intro doc flag f hf hv
    rcases mem_parse_fields hf with h | h | ⟨-, h⟩
    · rw [parse_with_patterns_eq] at h
      obtain ⟨e, he, hfe⟩ := List.mem_flatMap.mp h
      cases hpe : pmEntry doc e.1 e.2 with
      | none => rw [hpe] at hfe; exact absurd hfe (List.not_mem_nil f)
      | some g =>
        rw [hpe, show (some g).toList = [g] from rfl, List.mem_singleton] at hfe
        subst hfe
        simp only [pmEntry, Option.map_eq_some'] at hpe
        obtain ⟨mv, _, rfl⟩ := hpe
        rfl
    · obtain ⟨i, line, kw, m, v, _, _, _, _, _, hv2, _, rfl⟩ := (mem_ctx_iff _ _ f).mp h
      exact absurd hv (ne_of_gt hv2)
    · obtain ⟨i, line, m, v, _, _, _, hv2, _, rfl⟩ := (mem_all_iff _ _ f).mp h
      exact absurd hv (ne_of_gt hv2)

theorem C10_zero_value_only_pattern_matching_witness :
    ({ field_name := "annual_premium".data, value := 0, currency := "INR".data,
       category := Cat.PREMIUM, context := "Annual Premium: 0".data,
       confidence := 4/5, line_number := some 1,
       extraction_method := some "pattern_matching".data } : Field).extraction_method
      = some "pattern_matching".data :=
  C10_zero_value_only_pattern_matching.2 "Annual Premium: 0".data false _
    (by decide) (by decide)

end InsParse
